import Mathlib

/-!
# Sound-chat FSK framing protocol: shallow embedding

This file embeds the integer/string core of the sender (`sender.py`,
class `SoundSender`) and the receiver (`receiver.py`, class `SoundReceiver`)
of the sound-chat repository, and proves the spec's testable properties
about it.

Modelling conventions:
* Sample buffers hold IEEE floats in the source.  Sample *values* (sine
  waves, fades, normalization, FFT magnitudes) are not modelled; sample
  *counts*, bit strings, chunk classifications and the whole
  post-classification decode pipeline are modelled exactly.
* Python `int(x)` truncation on a float product is modelled as truncation
  of the exact rational product (`pyInt`); for every concrete duration used
  by the claims the float and rational results agree.
* Bit strings are `List Char` over the characters `'0'`/`'1'`, mirroring the
  Python `str` values.
-/

namespace SoundChat

/-- Python `int(x)`: truncation of a real value toward zero, taken on the
exact rational value. -/
def pyInt (q : ℚ) : ℤ := if 0 ≤ q then ⌊q⌋ else ⌈q⌉

/-! ## Sender (`sender.py`) -/

/-- Python `format(n, '08b')`: the binary digits of `n`, left-padded with
`'0'` to width at least 8 (wider values keep all their digits). -/
def format08b (n : ℕ) : List Char :=
  let s := Nat.toDigits 2 n
  List.replicate (8 - s.length) '0' ++ s

/-- `SoundSender.text_to_binary`: `''.join(format(ord(char), '08b') for char
in text)`.  Characters are taken as their Unicode code points. -/
def text_to_binary (text : String) : List Char :=
  (text.data.map (fun c => format08b c.toNat)).flatten

/-- The only failure mode of `SoundSender.generate_tone`: `np.linspace`
raises `ValueError` when the requested sample count is negative. -/
inductive ToneError
  | negativeSampleCount
  deriving Repr, DecidableEq

/-- `SoundSender.generate_tone`, modelled at the level of its sample count:
`samples = int(self.sample_rate * duration)`, then
`np.linspace(0, duration, samples, False)` produces `samples` samples (and
raises when `samples` is negative); the fade-in/fade-out rescales samples
but never changes the count.  The sample values are floats (a sine wave at
`frequency`, which does not influence the count) and are not modelled. -/
def generate_tone (sample_rate : ℕ) (frequency duration : ℚ) : Except ToneError ℕ :=
  let _ := frequency
  let samples : ℤ := pyInt (sample_rate * duration)
  if samples < 0 then .error .negativeSampleCount
  else .ok samples.toNat

/-- Length in samples of the signal built by `SoundSender.create_signal`:
start tone (0.2 s) · silence (`np.zeros(int(rate*0.1))`) · one tone of
`bit_duration` per bit of `text_to_binary text` · silence (0.1 s) · end
tone (0.2 s), concatenated.  The final peak normalization rescales the
buffer but does not change its length. -/
def create_signal_length (sample_rate : ℕ) (bit_duration : ℚ) (text : String) : ℤ :=
  pyInt (sample_rate * (2 / 10))
    + pyInt (sample_rate * (1 / 10))
    + (text_to_binary text).length * pyInt (sample_rate * bit_duration)
    + pyInt (sample_rate * (1 / 10))
    + pyInt (sample_rate * (2 / 10))

/-! ## Receiver (`receiver.py`): constants and per-chunk classification -/

/-- `self.freq_0 = 1000`. -/
def freq_0 : ℚ := 1000

/-- `self.freq_1 = 2000`. -/
def freq_1 : ℚ := 2000

/-- `self.freq_start = 500`. -/
def freq_start : ℚ := 500

/-- `self.freq_end = 3000`. -/
def freq_end : ℚ := 3000

/-- `self.freq_tolerance = 50`. -/
def freq_tolerance : ℚ := 50

/-- `self.min_amplitude = 0.01`. -/
def min_amplitude : ℚ := 1 / 100

/-- The four named protocol frequencies, in the priority order the
classifier checks them. -/
def named_freqs : List ℚ := [freq_start, freq_end, freq_0, freq_1]

/-- The chunk classifications of `SoundReceiver.classify_frequency`
(`'START'`, `'END'`, `'0'`, `'1'`, `'NOISE'`). -/
inductive Classification
  | start
  | endSig
  | zero
  | one
  | noise
  deriving Repr, DecidableEq

/-- `SoundReceiver.classify_frequency`: the first named frequency whose
tolerance window (strict comparison) contains `freq`, else `'NOISE'`. -/
def classify_frequency (freq : ℚ) : Classification :=
  if |freq - freq_start| < freq_tolerance then .start
  else if |freq - freq_end| < freq_tolerance then .endSig
  else if |freq - freq_0| < freq_tolerance then .zero
  else if |freq - freq_1| < freq_tolerance then .one
  else .noise

/-- `np.max` on a list: `none` on the empty list (where NumPy raises). -/
def npMax : List ℚ → Option ℚ
  | [] => none
  | x :: xs => some (xs.foldl max x)

/-- `np.argmax`: index of the first occurrence of the maximum (0 on an
empty list). -/
def argmax_index (l : List ℚ) : ℕ :=
  (List.range l.length).foldl (fun best i => if l.getD best 0 < l.getD i 0 then i else best) 0

/-- `SoundReceiver.detect_dominant_frequency`, given the first-half
magnitude spectrum of the windowed chunk and the matching frequency bins.
The Hann windowing and the FFT that produce these two arrays from the
float chunk are floating-point computations and are not modelled; the
peak-versus-threshold logic on them is.  An empty magnitude spectrum
(empty chunk) yields the sentinel 0. -/
def detect_dominant_frequency (magnitude freqs : List ℚ) : ℚ :=
  match npMax magnitude with
  | none => 0
  | some m =>
      if m < min_amplitude then 0
      else |freqs.getD (argmax_index magnitude) 0|

/-! ## Receiver: `binary_to_text` -/

/-- Python `int(byte, 2)` on a string of `'0'`/`'1'` characters:
most-significant-bit-first value. -/
def byteVal (byte : List Char) : ℕ :=
  byte.foldl (fun acc c => 2 * acc + if c = '1' then 1 else 0) 0

/-- The 8-character slices `binary_str[i:i+8]` for `i = 0, 8, 16, ...`;
a final slice shorter than 8 fails the `len(byte) == 8` guard and is
dropped. -/
def bytesOf : List Char → List (List Char)
  | b0 :: b1 :: b2 :: b3 :: b4 :: b5 :: b6 :: b7 :: rest =>
      [b0, b1, b2, b3, b4, b5, b6, b7] :: bytesOf rest
  | _ => []

/-- The per-byte branch of `SoundReceiver.binary_to_text`: printable ASCII
code points become the character, anything else becomes the literal
placeholder `"[" + str(code) + "]"`. -/
def byteText (code : ℕ) : String :=
  if 32 ≤ code ∧ code ≤ 126 then String.singleton (Char.ofNat code)
  else "[" ++ Nat.repr code ++ "]"

/-- `SoundReceiver.binary_to_text`: right-pad with `'0'` to the next
multiple of 8 (`ljust((len + 7) // 8 * 8, '0')`), slice into 8-character
groups, and map each group through `byteText`. -/
def binary_to_text (bits : List Char) : String :=
  let padded := bits ++ List.replicate ((8 - bits.length % 8) % 8) '0'
  String.join ((bytesOf padded).map (fun b => byteText (byteVal b)))

/-! ## Receiver: `process_audio` from the classification pass onward -/

/-- The two fatal print-and-return-`None` exits of
`SoundReceiver.process_audio`. -/
inductive DecodeError
  | noStartSignal
  | emptyPayload
  deriving Repr, DecidableEq

/-- Index of the first occurrence of `target`, scanning forward; `none`
when absent.  This is the boundary-search loop of `process_audio`
restricted to one target. -/
def findFirst (target : Classification) : List Classification → Option ℕ
  | [] => none
  | c :: rest => if c = target then some 0 else (findFirst target rest).map (· + 1)

/-- The `while data_start < len and classifications[data_start] == 'NOISE'`
loop; the fuel argument bounds the iteration count. -/
def skipNoiseFwdAux (cls : List Classification) : ℕ → ℕ → ℕ
  | 0, i => i
  | fuel + 1, i =>
      if i < cls.length ∧ cls.getD i .noise = .noise then skipNoiseFwdAux cls fuel (i + 1)
      else i

/-- Skip leading `'NOISE'` chunks starting at index `i`. -/
def skip_noise_forward (cls : List Classification) (i : ℕ) : ℕ :=
  skipNoiseFwdAux cls cls.length i

/-- The `while data_end > data_start and classifications[data_end-1] ==
'NOISE'` loop; the fuel argument bounds the iteration count. -/
def skipNoiseBwdAux (cls : List Classification) (lo : ℕ) : ℕ → ℕ → ℕ
  | 0, e => e
  | fuel + 1, e =>
      if lo < e ∧ cls.getD (e - 1) .start = .noise then skipNoiseBwdAux cls lo fuel (e - 1)
      else e

/-- Skip trailing `'NOISE'` chunks below index `e`, not descending below
`lo`. -/
def skip_noise_backward (cls : List Classification) (lo e : ℕ) : ℕ :=
  skipNoiseBwdAux cls lo e e

/-- One step of the bit-extraction loop of `process_audio`: `'0'`/`'1'`
chunks contribute their symbol, `'NOISE'` chunks contribute the best-guess
symbol by distance to `freq_0`/`freq_1`, any other classification
contributes nothing. -/
def chunk_bit : ℚ × Classification → List Char
  | (_, .zero) => ['0']
  | (_, .one) => ['1']
  | (f, .noise) => if |f - freq_0| < |f - freq_1| then ['0'] else ['1']
  | _ => []

/-- `SoundReceiver.process_audio` from the classification pass onward,
taking the per-chunk dominant frequencies as input (the chunking of the
float buffer and the FFT inside `detect_dominant_frequency` are
floating-point and are not modelled): classify every chunk, find the first
`'START'`, find the first `'END'` after it (defaulting to the end of the
list), trim `'NOISE'` from both ends of the enclosed window, extract bits
(with the noise fallback), and convert to text. -/
def process_audio (freqs : List ℚ) : Except DecodeError String :=
  let classifications : List (ℚ × Classification) :=
    freqs.map (fun f => (f, classify_frequency f))
  let cls : List Classification := classifications.map Prod.snd
  match findFirst .start cls with
  | none => .error .noStartSignal
  | some start_idx =>
      let end_idx : ℕ :=
        match findFirst .endSig (cls.drop (start_idx + 1)) with
        | none => cls.length
        | some j => start_idx + 1 + j
      let data_start := skip_noise_forward cls (start_idx + 1)
      let data_end := skip_noise_backward cls data_start end_idx
      let binary :=
        (((classifications.drop data_start).take (data_end - data_start)).map chunk_bit).flatten
      if binary = [] then .error .emptyPayload
      else .ok (binary_to_text binary)

/-! ## Spec-side definitions and the ideal channel -/

/-- Spec-side byte encoding (§4.2): the code point as an 8-bit,
zero-padded, most-significant-bit-first binary group. -/
def bits8 (n : ℕ) : List Char :=
  [7, 6, 5, 4, 3, 2, 1, 0].map (fun i => if n.testBit i then '1' else '0')

/-- Modelled from the spec: the noiseless channel of §8 (samples unmodified
after encode).  At the canonical config (sampleRate 44100, bitDuration
0.1 s) every segment of `create_signal` is a whole number of
`samples_per_bit = 4410` chunks — 2 chunks of start tone, 1 silence chunk,
1 chunk per bit, 1 silence chunk, 2 chunks of end tone — so an ideal
detector reports each tone chunk's nominal frequency and the sentinel 0
for each silence chunk.  This list stands in for the per-chunk results of
`detect_dominant_frequency`, whose FFT is not embeddable. -/
def ideal_chunk_freqs (text : String) : List ℚ :=
  [freq_start, freq_start, 0]
    ++ (text_to_binary text).map (fun b => if b = '1' then freq_1 else freq_0)
    ++ [0, freq_end, freq_end]

/-! ## Helper lemmas -/

theorem pyInt_natCast (n : ℕ) : pyInt (n : ℚ) = n := by
  simp [pyInt, Int.floor_natCast]

theorem pyInt_eq_ofNat (q : ℚ) (n : ℕ) (h : q = (n : ℚ)) : pyInt q = (n : ℤ) := by
  rw [h]; exact pyInt_natCast n

theorem floor_eq_of (q : ℚ) (n : ℤ) (h1 : (n : ℚ) ≤ q) (h2 : q < n + 1) : ⌊q⌋ = n :=
  Int.floor_eq_iff.mpr ⟨h1, h2⟩

set_option maxRecDepth 8000 in
theorem format08b_eq_bits8 : ∀ n : ℕ, n < 256 → format08b n = bits8 n := by decide

set_option maxRecDepth 8000 in
theorem byteVal_bits8 : ∀ n : ℕ, n < 256 → byteVal (bits8 n) = n := by decide

theorem bits8_length (n : ℕ) : (bits8 n).length = 8 := by simp [bits8]

theorem flatten_length_of_all8 :
    ∀ ls : List (List Char), (∀ l ∈ ls, l.length = 8) → ls.flatten.length = 8 * ls.length := by
  intro ls
  induction ls with
  | nil => intro _; rfl
  | cons b rest ih =>
      intro h
      rw [List.flatten_cons, List.length_append, h b (by simp),
        ih (fun l hl => h l (by simp [hl])), List.length_cons]
      ring

theorem bytesOf_append (b t : List Char) (hb : b.length = 8) :
    bytesOf (b ++ t) = b :: bytesOf t := by
  rcases b with _ | ⟨c0, b⟩; · simp at hb
  rcases b with _ | ⟨c1, b⟩; · simp at hb
  rcases b with _ | ⟨c2, b⟩; · simp at hb
  rcases b with _ | ⟨c3, b⟩; · simp at hb
  rcases b with _ | ⟨c4, b⟩; · simp at hb
  rcases b with _ | ⟨c5, b⟩; · simp at hb
  rcases b with _ | ⟨c6, b⟩; · simp at hb
  rcases b with _ | ⟨c7, b⟩; · simp at hb
  rcases b with _ | ⟨c8, b⟩
  · rfl
  · simp at hb

theorem bytesOf_flatten :
    ∀ ls : List (List Char), (∀ l ∈ ls, l.length = 8) → bytesOf ls.flatten = ls := by
  intro ls
  induction ls with
  | nil => intro _; rfl
  | cons b rest ih =>
      intro h
      rw [List.flatten_cons, bytesOf_append b _ (h b (by simp)),
        ih (fun l hl => h l (by simp [hl]))]

theorem findFirst_eq_none (target : Classification) :
    ∀ l : List Classification, (∀ c ∈ l, c ≠ target) → findFirst target l = none := by
  intro l
  induction l with
  | nil => intro _; rfl
  | cons c rest ih =>
      intro h
      simp only [findFirst]
      rw [if_neg (h c (by simp)), ih (fun d hd => h d (by simp [hd]))]
      rfl

theorem foldl_max_lt (c : ℚ) :
    ∀ (xs : List ℚ) (a : ℚ), a < c → (∀ x ∈ xs, x < c) → xs.foldl max a < c := by
  intro xs
  induction xs with
  | nil => intro a ha _; exact ha
  | cons y ys ih =>
      intro a ha h
      rw [List.foldl_cons]
      exact ih (max a y) (max_lt ha (h y (by simp))) (fun x hx => h x (by simp [hx]))

theorem classify_at_freq_start : classify_frequency freq_start = Classification.start := by
  norm_num [classify_frequency, freq_start, freq_tolerance]

theorem classify_at_freq_end : classify_frequency freq_end = Classification.endSig := by
  norm_num [classify_frequency, freq_start, freq_end, freq_tolerance, abs_sub_lt_iff]

theorem classify_at_freq_0 : classify_frequency freq_0 = Classification.zero := by
  norm_num [classify_frequency, freq_start, freq_end, freq_0, freq_tolerance, abs_sub_lt_iff]

theorem classify_at_freq_1 : classify_frequency freq_1 = Classification.one := by
  norm_num [classify_frequency, freq_start, freq_end, freq_0, freq_1, freq_tolerance,
    abs_sub_lt_iff]

theorem classify_at_zero : classify_frequency 0 = Classification.noise := by
  norm_num [classify_frequency, freq_start, freq_end, freq_0, freq_1, freq_tolerance,
    abs_sub_lt_iff]

/-! ## Claims -/

/-- C2: `text_to_binary "HI"` is the 16-bit string `"0100100001001001"`
(MSB-first 8-bit groups for `'H' = 72` and `'I' = 73`), and the assembled
signal at sampleRate 44100, bitDuration 0.1 s has exactly 97020 samples. -/
theorem scenario_a_encoding :
    text_to_binary "HI" = "0100100001001001".toList ∧
    create_signal_length 44100 (1 / 10) "HI" = 97020 := by
  constructor
  · decide
  · have hlen : (text_to_binary "HI").length = 16 := by decide
    simp only [create_signal_length]
    rw [pyInt_eq_ofNat _ 8820 (by norm_num), pyInt_eq_ofNat _ 4410 (by norm_num), hlen]
    norm_num

/-- C3 counterexample: `text_to_binary` does not fail on a character whose
code point exceeds 255; for code point 256 it emits a nine-bit group. -/
theorem text_to_binary_code_point_256 :
    text_to_binary (String.mk [Char.ofNat 256]) =
      ['1', '0', '0', '0', '0', '0', '0', '0', '0'] := by decide

/-- C3 (amended): text-to-bits encoding never fails; for every character
with code point at most 255 it emits exactly one 8-bit, zero-padded,
most-significant-bit-first group, concatenated in character order (so the
output has 8 bits per character), while a code point above 255 emits its
full minimal-width binary representation of more than 8 bits. -/
theorem text_to_binary_bytes (text : String) (h : ∀ c ∈ text.data, c.toNat ≤ 255) :
    text_to_binary text = (text.data.map (fun c => bits8 c.toNat)).flatten ∧
    (text_to_binary text).length = 8 * text.data.length := by
  have hmap : text.data.map (fun c => format08b c.toNat)
      = text.data.map (fun c => bits8 c.toNat) :=
    List.map_congr_left (fun c hc => format08b_eq_bits8 c.toNat (Nat.lt_succ_of_le (h c hc)))
  constructor
  · simp only [text_to_binary]
    rw [hmap]
  · simp only [text_to_binary]
    rw [hmap, flatten_length_of_all8 _ ?_, List.length_map]
    intro l hl
    obtain ⟨c, _, rfl⟩ := List.mem_map.mp hl
    exact bits8_length _

/-- C3 witness: the amended theorem applied to `"HI"`. -/
theorem text_to_binary_bytes_app :
    text_to_binary "HI" = ("HI".data.map (fun c => bits8 c.toNat)).flatten ∧
    (text_to_binary "HI").length = 8 * "HI".data.length :=
  text_to_binary_bytes "HI" (by decide)

/-- C4 counterexample: at sampleRate 3 and duration 0.5 s the generator
produces `int(1.5) = 1` sample where `round` gives 2; and the negative
duration -0.00001 s at 44100 Hz is not rejected — it produces an (empty)
signal. -/
theorem generate_tone_truncates :
    generate_tone 3 freq_0 (1 / 2) = .ok 1 ∧ round ((3 : ℚ) * (1 / 2)) = (2 : ℤ) ∧
    generate_tone 44100 freq_0 (-1 / 100000) = .ok 0 := by
  refine ⟨?_, ?_, ?_⟩
  · have hq : ((3 : ℕ) : ℚ) * (1 / 2) = 3 / 2 := by norm_num
    have hfl : ⌊(3 / 2 : ℚ)⌋ = 1 := floor_eq_of _ _ (by norm_num) (by norm_num)
    simp only [generate_tone, pyInt, hq, hfl]
    norm_num
  · rw [round_eq, show (3 : ℚ) * (1 / 2) + 1 / 2 = ((2 : ℕ) : ℚ) from by norm_num,
      Int.floor_natCast]
    norm_num
  · have hq : ((44100 : ℕ) : ℚ) * (-1 / 100000) = -441 / 1000 := by norm_num
    have hcl : ⌈(-441 / 1000 : ℚ)⌉ = 0 := Int.ceil_eq_iff.mpr (by constructor <;> norm_num)
    simp only [generate_tone, pyInt, hq, hcl]
    norm_num

/-- C4 (amended): for every nonnegative duration the tone generator
produces exactly `⌊sampleRate × duration⌋` samples (truncation, not
rounding); a negative duration is not explicitly rejected — when the
truncated sample count is negative the underlying `np.linspace` call
raises, and otherwise an empty signal is produced. -/
theorem generate_tone_sample_count (sample_rate : ℕ) (frequency duration : ℚ) :
    (0 ≤ duration →
      generate_tone sample_rate frequency duration
        = .ok (⌊(sample_rate : ℚ) * duration⌋).toNat) ∧
    (duration < 0 →
      generate_tone sample_rate frequency duration = .error .negativeSampleCount ∨
      generate_tone sample_rate frequency duration = .ok 0) := by
  constructor
  · intro hd
    have hq : (0 : ℚ) ≤ (sample_rate : ℚ) * duration :=
      mul_nonneg (Nat.cast_nonneg sample_rate) hd
    have hfl : (0 : ℤ) ≤ ⌊(sample_rate : ℚ) * duration⌋ := Int.floor_nonneg.mpr hq
    simp only [generate_tone, pyInt, if_pos hq]
    rw [if_neg (by omega)]
  · intro hd
    rcases Nat.eq_zero_or_pos sample_rate with h0 | hpos
    · right
      subst h0
      simp [generate_tone, pyInt]
    · have hq : (sample_rate : ℚ) * duration < 0 :=
        mul_neg_of_pos_of_neg (by exact_mod_cast hpos) hd
      have hc : ⌈(sample_rate : ℚ) * duration⌉ ≤ 0 := Int.ceil_le.mpr (by exact_mod_cast hq.le)
      simp only [generate_tone, pyInt, if_neg (not_le.mpr hq)]
      rcases lt_or_eq_of_le hc with hlt | heq
      · left
        rw [if_pos hlt]
      · right
        rw [if_neg (by omega), heq]
        rfl

/-- C4 witness: the amended theorem applied at sampleRate 44100,
duration 0.1 s, giving 4410 samples. -/
theorem generate_tone_sample_count_app :
    generate_tone 44100 freq_0 (1 / 10) = .ok 4410 := by
  have h := (generate_tone_sample_count 44100 freq_0 (1 / 10)).1 (by norm_num)
  rw [h, show ((44100 : ℕ) : ℚ) * (1 / 10) = ((4410 : ℕ) : ℚ) from by norm_num,
    Int.floor_natCast]
  rfl

/-- C5: during bit extraction, a payload chunk classified Noise is mapped
to the bit whose named frequency (`freq_0` or `freq_1`) is nearer to the
chunk's dominant frequency, an exact tie resolving to `'1'`, and the
fallback is total; in particular a 1300 Hz chunk is Noise and yields bit
`'0'`. -/
theorem noise_fallback_nearest :
    (∀ f : ℚ, |f - freq_0| < |f - freq_1| → chunk_bit (f, Classification.noise) = ['0']) ∧
    (∀ f : ℚ, |f - freq_1| < |f - freq_0| → chunk_bit (f, Classification.noise) = ['1']) ∧
    (∀ f : ℚ, |f - freq_0| = |f - freq_1| → chunk_bit (f, Classification.noise) = ['1']) ∧
    classify_frequency 1300 = Classification.noise ∧
    chunk_bit (1300, classify_frequency 1300) = ['0'] := by
  have hn : classify_frequency 1300 = Classification.noise := by
    norm_num [classify_frequency, freq_start, freq_end, freq_0, freq_1, freq_tolerance,
      abs_sub_lt_iff]
  refine ⟨fun f h => by simp only [chunk_bit, if_pos h],
          fun f h => by simp only [chunk_bit, if_neg (not_lt.mpr h.le)],
          fun f h => by simp only [chunk_bit, if_neg (not_lt.mpr h.ge)],
          hn, ?_⟩
  rw [hn]
  simp only [chunk_bit]
  rw [if_pos (by norm_num [freq_0, freq_1])]

/-- C5 witness: a 900 Hz Noise chunk is nearer `freq_0` and yields `'0'`. -/
theorem noise_fallback_nearest_app : chunk_bit (900, Classification.noise) = ['0'] :=
  noise_fallback_nearest.1 900 (by norm_num [freq_0, freq_1])

/-- C6: when no chunk of the buffer classifies as Start, `process_audio`
takes the no-start-signal exit (print `"No START signal found"`, return
`None`) and yields no message text. -/
theorem no_start_signal_fails (freqs : List ℚ)
    (h : ∀ f ∈ freqs, classify_frequency f ≠ Classification.start) :
    process_audio freqs = .error .noStartSignal := by
  have hmap : (freqs.map (fun f => (f, classify_frequency f))).map Prod.snd
      = freqs.map classify_frequency := by
    rw [List.map_map]
    rfl
  have hnone : findFirst .start (freqs.map classify_frequency) = none := by
    apply findFirst_eq_none
    intro c hc
    obtain ⟨f, hf, rfl⟩ := List.mem_map.mp hc
    exact h f hf
  simp only [process_audio, hmap, hnone]

/-- C6 witness: a silent buffer — the detector reports the sentinel 0 for
every chunk — decodes to the no-start-signal failure. -/
theorem no_start_signal_fails_app :
    process_audio [0, 0, 0] = .error .noStartSignal := by
  apply no_start_signal_fails
  intro f hf
  simp only [List.mem_cons, List.not_mem_nil, or_false] at hf
  rcases hf with rfl | rfl | rfl <;> rw [classify_at_zero] <;> decide

/-- C7: a chunk whose windowed spectral magnitudes all stay below
`min_amplitude = 0.01` makes the detector return the sentinel 0, which the
classifier maps to Noise, regardless of the chunk's nominal frequency
content. -/
theorem silent_chunk_detects_zero (magnitude freqs : List ℚ)
    (h : ∀ m ∈ magnitude, m < min_amplitude) :
    detect_dominant_frequency magnitude freqs = 0 ∧
    classify_frequency 0 = Classification.noise := by
  refine ⟨?_, classify_at_zero⟩
  cases magnitude with
  | nil => rfl
  | cons x xs =>
      have hm : xs.foldl max x < min_amplitude :=
        foldl_max_lt _ xs x (h x (by simp)) (fun y hy => h y (by simp [hy]))
      simp only [detect_dominant_frequency, npMax, if_pos hm]

/-- C7 witness: a spectrum with peaks 0.005 and 0.0066... at the bit
frequencies still detects 0 and classifies Noise. -/
theorem silent_chunk_detects_zero_app :
    detect_dominant_frequency [1 / 200, 1 / 150] [freq_0, freq_1] = 0 ∧
    classify_frequency 0 = Classification.noise := by
  refine silent_chunk_detects_zero _ _ ?_
  intro m hm
  simp only [List.mem_cons, List.not_mem_nil, or_false] at hm
  rcases hm with rfl | rfl <;> norm_num [min_amplitude]

/-- C8: with the fixed config {500, 1000, 2000, 3000} and tolerance 50, no
real-valued frequency lies within tolerance of two distinct named
frequencies, so at most one classifier window can match any input. -/
theorem tolerance_windows_disjoint (f : ℝ) (a b : ℚ)
    (ha : a ∈ named_freqs) (hb : b ∈ named_freqs) (hab : a ≠ b) :
    ¬(|f - (a : ℝ)| < ((freq_tolerance : ℚ) : ℝ) ∧
      |f - (b : ℝ)| < ((freq_tolerance : ℚ) : ℝ)) := by
  rintro ⟨h1, h2⟩
  have hd : |(a : ℝ) - (b : ℝ)| < 100 := by
    have heq : (a : ℝ) - b = (a - f) + (f - b) := by ring
    calc |(a : ℝ) - b| = |((a : ℝ) - f) + (f - b)| := by rw [heq]
      _ ≤ |(a : ℝ) - f| + |f - (b : ℝ)| := abs_add _ _
      _ = |f - (a : ℝ)| + |f - (b : ℝ)| := by rw [abs_sub_comm]
      _ < ((freq_tolerance : ℚ) : ℝ) + ((freq_tolerance : ℚ) : ℝ) := add_lt_add h1 h2
      _ = 100 := by norm_num [freq_tolerance]
  rw [abs_lt] at hd
  simp only [named_freqs, freq_start, freq_end, freq_0, freq_1, List.mem_cons,
    List.not_mem_nil, or_false] at ha hb
  rcases ha with rfl | rfl | rfl | rfl <;> rcases hb with rfl | rfl | rfl | rfl <;>
    first
      | exact hab rfl
      | (push_cast at hd; norm_num at hd)

/-- C8 witness: 520 Hz is not within tolerance of both 500 and 1000. -/
theorem tolerance_windows_disjoint_app :
    ¬(|(520 : ℝ) - ((freq_start : ℚ) : ℝ)| < ((freq_tolerance : ℚ) : ℝ) ∧
      |(520 : ℝ) - ((freq_0 : ℚ) : ℝ)| < ((freq_tolerance : ℚ) : ℝ)) :=
  tolerance_windows_disjoint 520 freq_start freq_0 (by simp [named_freqs])
    (by simp [named_freqs]) (by norm_num [freq_start, freq_0])

theorem classify_noise_of_far (f : ℚ)
    (h1 : ¬(|f - freq_start| < freq_tolerance))
    (h2 : ¬(|f - freq_end| < freq_tolerance))
    (h3 : ¬(|f - freq_0| < freq_tolerance))
    (h4 : ¬(|f - freq_1| < freq_tolerance)) :
    classify_frequency f = Classification.noise := by
  simp [classify_frequency, h1, h2, h3, h4]

/-- C10: the tolerance windows are open intervals — a frequency exactly
`freq_tolerance = 50` Hz away from a named frequency classifies as Noise,
because the comparison is strict. -/
theorem boundary_frequency_is_noise (f : ℚ)
    (h : ∃ c ∈ named_freqs, |f - c| = freq_tolerance) :
    classify_frequency f = Classification.noise := by
  obtain ⟨c, hc, habs⟩ := h
  rw [abs_eq (by norm_num [freq_tolerance])] at habs
  simp only [named_freqs, freq_start, freq_end, freq_0, freq_1, List.mem_cons,
    List.not_mem_nil, or_false] at hc
  rcases hc with rfl | rfl | rfl | rfl <;> rcases habs with h | h <;>
    refine classify_noise_of_far f ?_ ?_ ?_ ?_ <;>
      (rw [abs_sub_lt_iff]
       rintro ⟨g1, g2⟩
       simp only [freq_start, freq_end, freq_0, freq_1, freq_tolerance] at g1 g2 h
       linarith)

/-- C10 witness: 550 Hz, exactly 50 Hz above the Start frequency, is
Noise. -/
theorem boundary_frequency_is_noise_app :
    classify_frequency 550 = Classification.noise :=
  boundary_frequency_is_noise 550
    ⟨freq_start, by simp [named_freqs], by norm_num [freq_start, freq_tolerance]⟩

/-- C9: bits-to-text decoding partitions the (padded) bit string into
8-bit MSB-first groups read as unsigned integers; every value in
[32, 126] appends the corresponding ASCII character and every other value
appends the literal placeholder `"[" ++ value ++ "]"`; byte value 7 yields
the literal `"[7]"`. -/
theorem binary_to_text_bytes (codes : List ℕ) (h : ∀ c ∈ codes, c < 256) :
    binary_to_text ((codes.map bits8).flatten) =
      String.join (codes.map (fun c =>
        if 32 ≤ c ∧ c ≤ 126 then String.singleton (Char.ofNat c)
        else "[" ++ Nat.repr c ++ "]")) ∧
    binary_to_text (bits8 7) = "[7]" := by
  constructor
  · have hall : ∀ l ∈ codes.map bits8, l.length = 8 := by
      intro l hl
      obtain ⟨c, _, rfl⟩ := List.mem_map.mp hl
      exact bits8_length _
    have hlen : ((codes.map bits8).flatten).length = 8 * codes.length := by
      rw [flatten_length_of_all8 _ hall, List.length_map]
    have hpad : (8 - ((codes.map bits8).flatten).length % 8) % 8 = 0 := by
      rw [hlen]
      omega
    simp only [binary_to_text, hpad, List.replicate_zero, List.append_nil]
    rw [bytesOf_flatten _ hall, List.map_map]
    refine congrArg String.join (List.map_congr_left ?_)
    intro c hc
    simp only [Function.comp_apply, byteVal_bits8 c (h c hc), byteText]
  · decide

/-- C9 witness: bytes `[72, 7]` decode to `"H"` followed by the literal
placeholder `"[7]"`. -/
theorem binary_to_text_bytes_app :
    binary_to_text (([72, 7].map bits8).flatten) =
      String.join ([72, 7].map (fun c =>
        if 32 ≤ c ∧ c ≤ 126 then String.singleton (Char.ofNat c)
        else "[" ++ Nat.repr c ++ "]")) ∧
    binary_to_text (bits8 7) = "[7]" :=
  binary_to_text_bytes [72, 7] (by decide)

/-- C1 (exhibiting the code bug): the noiseless-channel round trip fails.
At sampleRate 44100, bitDuration 0.1 s the encoded signal spans exactly
the chunks of `ideal_chunk_freqs` (first conjunct: every segment is a
whole number of 4410-sample chunks), and decoding those ideally detected
chunks returns `"$$[128]"`, not `"HI"`: the 0.2 s start tone occupies two
chunks, so the silence-skipping loop — which starts immediately after the
*first* Start chunk — stops at the second Start chunk, and the silence
chunk after it (classified Noise, dominant frequency 0) is noise-guessed
as a spurious leading `'0'` bit, shifting the whole payload. -/
theorem round_trip_fails_noiselessly :
    (∀ text : String,
      create_signal_length 44100 (1 / 10) text = 4410 * ((ideal_chunk_freqs text).length : ℤ)) ∧
    process_audio (ideal_chunk_freqs "HI") = .ok "$$[128]" ∧
    "$$[128]" ≠ "HI" := by
  refine ⟨?_, ?_, by decide⟩
  · intro text
    simp only [create_signal_length, ideal_chunk_freqs]
    rw [pyInt_eq_ofNat _ 8820 (by norm_num), pyInt_eq_ofNat _ 4410 (by norm_num)]
    simp only [List.length_append, List.length_map, List.length_cons, List.length_nil]
    push_cast
    ring
  · have hb : text_to_binary "HI" =
        ['0', '1', '0', '0', '1', '0', '0', '0', '0', '1', '0', '0', '1', '0', '0', '1'] := by
      decide
    have hfreqs : ideal_chunk_freqs "HI" =
        [freq_start, freq_start, 0,
         freq_0, freq_1, freq_0, freq_0, freq_1, freq_0, freq_0, freq_0,
         freq_0, freq_1, freq_0, freq_0, freq_1, freq_0, freq_0, freq_1,
         0, freq_end, freq_end] := by
      rw [ideal_chunk_freqs, hb]
      simp
    have hpairs : (ideal_chunk_freqs "HI").map (fun f => (f, classify_frequency f)) =
        [(freq_start, .start), (freq_start, .start), (0, .noise),
         (freq_0, .zero), (freq_1, .one), (freq_0, .zero), (freq_0, .zero), (freq_1, .one),
         (freq_0, .zero), (freq_0, .zero), (freq_0, .zero),
         (freq_0, .zero), (freq_1, .one), (freq_0, .zero), (freq_0, .zero), (freq_1, .one),
         (freq_0, .zero), (freq_0, .zero), (freq_1, .one),
         (0, .noise), (freq_end, .endSig), (freq_end, .endSig)] := by
      rw [hfreqs]
      simp only [List.map_cons, List.map_nil, classify_at_freq_start, classify_at_zero,
        classify_at_freq_0, classify_at_freq_1, classify_at_freq_end]
    have hguess : chunk_bit (0, Classification.noise) = ['0'] := by
      simp only [chunk_bit]
      rw [if_pos (by norm_num [freq_0, freq_1])]
    have hbits :
        ([(freq_start, .start), (freq_start, .start), (0, .noise),
          (freq_0, .zero), (freq_1, .one), (freq_0, .zero), (freq_0, .zero), (freq_1, .one),
          (freq_0, .zero), (freq_0, .zero), (freq_0, .zero),
          (freq_0, .zero), (freq_1, .one), (freq_0, .zero), (freq_0, .zero), (freq_1, .one),
          (freq_0, .zero), (freq_0, .zero), (freq_1, .one),
          (0, .noise), (freq_end, .endSig), (freq_end, .endSig)]
            : List (ℚ × Classification)).map chunk_bit =
        [[], [], ['0'],
         ['0'], ['1'], ['0'], ['0'], ['1'], ['0'], ['0'], ['0'],
         ['0'], ['1'], ['0'], ['0'], ['1'], ['0'], ['0'], ['1'],
         ['0'], [], []] := by
      simp only [List.map_cons, List.map_nil, hguess]
      rfl
    simp only [process_audio, hpairs]
    simp only [List.map_take, List.map_drop, hbits]
    rfl

end SoundChat
